import Mathlib

/-!
Verification of the Phishtank feed component (`feeds/phishtank.py`).

The source is Python 2: `str` values are byte strings, which we model as
`List Nat` (each element a byte, `< 256`); decoded unicode text is also
`List Nat` (each element a code point).  External collaborators that are
not part of the source under verification (the `Phish` persistence model
and the HTTP transport) are modelled as explicit parameters.
-/

set_option autoImplicit false

namespace Phishtank

/-- Byte list of an ASCII Lean string literal (convenience for concrete inputs). -/
def ascii (s : String) : List Nat := s.data.map Char.toNat

/-- Decimal digit bytes of a natural number (Python `str` formatting of an int). -/
def natDigits (n : Nat) : List Nat := (Nat.toDigits 10 n).map Char.toNat

/-! ### Percent decoding: `urllib.unquote` (Python 2), byte level.

`urllib.unquote` replaces each `%XX` (both hex digits, either case) by the
byte it denotes and leaves every other byte, including a `%` not followed
by two hex digits, unchanged. -/

/-- Upper-case hex digit byte for a nibble (as `urllib.quote` emits). -/
def hexDigit (x : Nat) : Nat := if x < 10 then 48 + x else 55 + x

/-- Is this byte an ASCII hex digit (`0-9`, `A-F`, `a-f`)? -/
def isHexDigit (d : Nat) : Bool :=
  decide ((48 ≤ d ∧ d ≤ 57) ∨ (65 ≤ d ∧ d ≤ 70) ∨ (97 ≤ d ∧ d ≤ 102))

/-- Value of an ASCII hex digit byte. -/
def hexVal (d : Nat) : Nat :=
  if 48 ≤ d ∧ d ≤ 57 then d - 48
  else if 65 ≤ d ∧ d ≤ 70 then d - 55
  else if 97 ≤ d ∧ d ≤ 102 then d - 87
  else 0

/-- Scanner state for `unquote`: either in plain text, just after a `%`, or
after `%` and one hex digit (carried). -/
inductive UnqState where
  | norm
  | pct
  | pctH (h : Nat)

/-- One-byte-at-a-time scanner for `urllib.unquote`. -/
def unqGo : UnqState → List Nat → List Nat
  | .norm, [] => []
  | .norm, b :: r => if b = 37 then unqGo .pct r else b :: unqGo .norm r
  | .pct, [] => [37]
  | .pct, b :: r =>
    if isHexDigit b then unqGo (.pctH b) r
    else if b = 37 then 37 :: unqGo .pct r
    else 37 :: b :: unqGo .norm r
  | .pctH h, [] => [37, h]
  | .pctH h, b :: r =>
    if isHexDigit b then (hexVal h * 16 + hexVal b) :: unqGo .norm r
    else 37 :: h :: (if b = 37 then unqGo .pct r else b :: unqGo .norm r)

/-- `urllib.unquote` on a byte string (source line 44). -/
def unquote (l : List Nat) : List Nat := unqGo .norm l

/-! ### UTF-8 (Python 2 `str.decode('utf-8')` / `unicode.encode('utf-8')`). -/

/-- UTF-8 encoding of a single code point, written with `/` and `%`
arithmetic (equivalent to the usual shift/mask formulation). -/
def utf8EncodeChar (c : Nat) : List Nat :=
  if c < 128 then [c]
  else if c < 2048 then [192 + c / 64, 128 + c % 64]
  else if c < 65536 then [224 + c / 4096, 128 + c / 64 % 64, 128 + c % 64]
  else [240 + c / 262144, 128 + c / 4096 % 64, 128 + c / 64 % 64, 128 + c % 64]

/-- UTF-8 encoding of a sequence of code points. -/
def utf8Encode (u : List Nat) : List Nat := (u.map utf8EncodeChar).flatten

/-- One-byte-at-a-time UTF-8 decoder.  The state carries, inside a
multi-byte sequence, the code point accumulated so far, the number of
continuation bytes still expected, and the smallest code point the
sequence length permits (overlong encodings are rejected, as Python's
decoder does). -/
def utf8DecodeGo : Option (Nat × Nat × Nat) → List Nat → Option (List Nat)
  | some _, [] => none
  | none, [] => some []
  | none, b :: r =>
    if b < 128 then (utf8DecodeGo none r).map (fun u => b :: u)
    else if b < 192 then none
    else if b < 224 then utf8DecodeGo (some (b - 192, 1, 128)) r
    else if b < 240 then utf8DecodeGo (some (b - 224, 2, 2048)) r
    else if b < 248 then utf8DecodeGo (some (b - 240, 3, 65536)) r
    else none
  | some (cp, k, minV), b :: r =>
    if 128 ≤ b ∧ b < 192 then
      if k = 1 then
        if minV ≤ cp * 64 + (b - 128) ∧ cp * 64 + (b - 128) < 1114112 then
          (utf8DecodeGo none r).map (fun u => (cp * 64 + (b - 128)) :: u)
        else none
      else utf8DecodeGo (some (cp * 64 + (b - 128), k - 1, minV)) r
    else none

/-- `bytes.decode('utf-8')`: `some` code points, or `none` on a decode error. -/
def utf8Decode (l : List Nat) : Option (List Nat) := utf8DecodeGo none l

/-! ### Percent encoding.

Modelled from the spec: the repository contains no encoder (the feed
"urlencodes on output" upstream); §8 of the spec states the round-trip
`encode(decode(x)) == x` for the feed's URL fields.  We model the encoder
as `urllib.quote` with an empty `safe` set applied to the UTF-8 encoding:
every byte outside `always_safe` (letters, digits, `_`, `.`, `-`) becomes
`%XX` with upper-case hex. -/

/-- Is the byte in `urllib`'s `always_safe` set (letters, digits, `_.-`)? -/
def isSafeByte (b : Nat) : Bool :=
  decide ((48 ≤ b ∧ b ≤ 57) ∨ (65 ≤ b ∧ b ≤ 90) ∨ (97 ≤ b ∧ b ≤ 122) ∨
    b = 45 ∨ b = 46 ∨ b = 95)

/-- Percent-encode a single byte. -/
def encByte (b : Nat) : List Nat :=
  if isSafeByte b then [b] else [37, hexDigit (b / 16), hexDigit (b % 16)]

/-- Percent-encode a byte string. -/
def percentEncode (bs : List Nat) : List Nat := (bs.map encByte).flatten

/-- The decoding the source applies to a raw URL field (source line 44):
`urllib.unquote` followed by a UTF-8 decode. -/
def pyDecode (x : List Nat) : Option (List Nat) := utf8Decode (unquote x)

/-- Modelled from the spec: percent-encoding of a unicode string, the
inverse direction of `pyDecode` for the round-trip property. -/
def pyEncode (u : List Nat) : List Nat := percentEncode (utf8Encode u)

/-- A valid unicode string: every code point below `0x110000`. -/
def validStr (u : List Nat) : Prop := ∀ c ∈ u, c < 1114112

/-- Modelled from the spec: a "well-formed percent-encoded URL field" is
one the feed's encoder can produce, i.e. the encoding of some valid
unicode string. -/
def wellFormedField (x : List Nat) : Prop := ∃ u, validStr u ∧ pyEncode u = x


/-! ### Line splitting: Python 2 `str.splitlines()` on bytes.

Line boundaries are `\n`, `\r` and `\r\n`; there is no trailing empty
line after a final terminator, and the empty string yields no lines. -/

/-- Scanner for `splitlines`, accumulating the current line reversed. -/
def slGo : List Nat → List Nat → List (List Nat)
  | acc, [] => [acc.reverse]
  | acc, b :: rest =>
    if b = 13 then
      match rest with
      | r2 :: rest2 =>
        if r2 = 10 then
          acc.reverse :: (if rest2.isEmpty then [] else slGo [] rest2)
        else acc.reverse :: slGo [] (r2 :: rest2)
      | [] => [acc.reverse]
    else if b = 10 then
      acc.reverse :: (if rest.isEmpty then [] else slGo [] rest)
    else slGo (b :: acc) rest

/-- `bytes.splitlines()` (source lines 90/97 apply it to the UTF-8 encoded body). -/
def splitlinesB (l : List Nat) : List (List Nat) :=
  if l.isEmpty then [] else slGo [] l

/-- Plain one-separator split, Python `str.split(sep)` with a one-byte
separator (used for `entries[1].split(',')` on source line 105). -/
def splitSepGo (sep : Nat) : List Nat → List Nat → List (List Nat)
  | acc, [] => [acc.reverse]
  | acc, b :: rest =>
    if b = sep then acc.reverse :: splitSepGo sep [] rest
    else splitSepGo sep (b :: acc) rest

/-- Python `str.split(sep)`: the result is never empty. -/
def splitSep (sep : Nat) (l : List Nat) : List (List Nat) := splitSepGo sep [] l

/-! ### CSV record parsing: `csv.reader` with the default dialect
(source line 37: delimiter `,`).

One physical line is parsed into one record: comma-delimited fields, a
`"` opening a field starts a quoted run, `""` inside a quoted run is a
literal quote, text after a closing quote is appended to the field
(non-strict dialect).  A blank line yields the empty record `[]`.
Quoted fields spanning several physical lines are not modelled (the body
is split into lines first; no claim involves embedded newlines). -/

/-- Parser mode: at the start of a field, inside an unquoted field,
inside a quoted run, or just after a `"` inside a quoted run. -/
inductive CsvMode where
  | fieldStart
  | unquoted
  | quoted
  | quotedQ

/-- One-byte-at-a-time CSV field scanner. -/
def csvGo : CsvMode → List Nat → List Nat → List (List Nat)
  | _, acc, [] => [acc.reverse]
  | .fieldStart, acc, b :: rest =>
    if b = 34 then csvGo .quoted acc rest
    else if b = 44 then acc.reverse :: csvGo .fieldStart [] rest
    else csvGo .unquoted (b :: acc) rest
  | .unquoted, acc, b :: rest =>
    if b = 44 then acc.reverse :: csvGo .fieldStart [] rest
    else csvGo .unquoted (b :: acc) rest
  | .quoted, acc, b :: rest =>
    if b = 34 then csvGo .quotedQ acc rest
    else csvGo .quoted (b :: acc) rest
  | .quotedQ, acc, b :: rest =>
    if b = 34 then csvGo .quoted (34 :: acc) rest
    else if b = 44 then acc.reverse :: csvGo .fieldStart [] rest
    else csvGo .unquoted (b :: acc) rest

/-- Parse one CSV line into its record (list of fields). -/
def csvParseLine (l : List Nat) : List (List Nat) :=
  if l.isEmpty then [] else csvGo .fieldStart [] l

/-! ### Data model. -/

/-- The Python values relevant to the `offset` argument: the integer
default `0`, a string, or `None`. -/
inductive PyVal where
  | pyInt (n : Int)
  | pyStr (s : List Nat)
  | pyNone
  deriving DecidableEq

/-- Python truthiness (`if not offset`, source line 67). -/
def isFalsy : PyVal → Bool
  | .pyInt n => n == 0
  | .pyStr s => s.isEmpty
  | .pyNone => true

/-- Modelled from the spec: the external persistence collaborators
consumed by the component — `Phish.exists`, `Phish.clean_url` (a pure
normalization function) and `Phish.get_most_recent(feed='phishtank')`
(exposing the identifier of the most recent stored record, if any).
The `models` module is not part of the source under verification. -/
structure Store where
  existsRaw : List Nat → Bool
  clean : List Nat → List Nat
  mostRecent : Option (List Nat)

/-- The slice of configuration the claims touch:
`config['phishtank']['last_seen']`.  The endpoint URL and credentials
only parametrise the HTTP transport, which is abstract here. -/
structure Config where
  lastSeen : List Nat

/-- An HTTP response as the source observes it: `ok`, `status_code`,
`text` (unicode code points — `requests` decodes the body) and an opaque
textual rendering of the headers. -/
structure HttpResponse where
  ok : Bool
  status : Nat
  text : List Nat
  headers : List Nat
  deriving DecidableEq

/-- An output record (`Phish(pid=..., url=..., feed=..., submission_time=...,
verify_time=...)`, source line 54).  `url` is decoded unicode; the other
fields are the raw bytes from the feed. -/
structure Phish where
  pid : List Nat
  url : List Nat
  feed : List Nat
  submission_time : List Nat
  verify_time : List Nat
  deriving DecidableEq

/-- `self.feed` of the `PhishtankFeed` instance. -/
def feedName : List Nat := ascii "phishtank"

/-- The exceptions `get` can propagate: `FetchException` with its
constructor argument, or the `IndexError` from an out-of-range index. -/
inductive PyExc where
  | fetchEx (arg : PyVal)
  | indexError
  deriving DecidableEq

/-- Error-level log records emitted by the component.  (Info- and
debug-level logging is not modelled.)  `errRow` carries the parsed
record of source line 48; the appended `sys.exc_info()` text is not
modelled.  `errFetch` carries the message of source lines 92-94. -/
inductive LogEvent where
  | errFetch (msg : List Nat)
  | errRow (record : List (List Nat))
  deriving DecidableEq

/-- The message formatted at source lines 92-94:
`'Error fetching response:\nStatus: ..\nResponse:..\nResponse Headers:..'`. -/
def fetchErrorMsg (status : Nat) (body headers : List Nat) : List Nat :=
  ascii "Error fetching response:\nStatus: " ++ natDigits status ++
    ascii "\nResponse:" ++ body ++ ascii "\nResponse Headers:" ++ headers

/-- Python `str(list_of_strings)`: bracketed, comma-separated, quoted.
Byte-escaping inside elements is not modelled; the only call site
(source line 101) is reached exclusively with the empty list. -/
def pyListRepr (ls : List (List Nat)) : List Nat :=
  (91 :: List.intercalate (ascii ", ") (ls.map fun s => 39 :: (s ++ [39]))) ++ [93]

/-- The message of the `FetchException` at source lines 99-101. -/
def invalidResponseMsg (entries : List (List Nat)) : List Nat :=
  ascii "Error fetching response: Invalid response received: " ++ pyListRepr entries

/-- The body of the `try` at source lines 43-46: index 1 (the URL field),
percent-decode it and UTF-8 decode it, then indices 3 and 5.  Any failure
(missing column or decode error) yields `none` — the bare `except`. -/
def extractFields (record : List (List Nat)) :
    Option (List Nat × List Nat × List Nat) :=
  match record.get? 1 with
  | none => none
  | some rawUrl =>
    match pyDecode rawUrl with
    | none => none
    | some url =>
      match record.get? 3, record.get? 5 with
      | some st, some vt => some (url, st, vt)
      | _, _ => none

/-- The `Phish` a single row would produce, before deduplication:
`none` when the record is empty or field extraction fails.  (Used to
state which rows are "valid" in the dedup theorems.) -/
def rowPhishE (row : List Nat) : Option Phish :=
  match csvParseLine row with
  | [] => none
  | pid :: tl =>
    (extractFields (pid :: tl)).map fun x => ⟨pid, x.1, feedName, x.2.1, x.2.2⟩

/-- The loop of `_process_rows` (source lines 40-54).  State: `seen` is
`urls_seen`, `entries` the accumulated output, `logs` the error log.
`pid = record[0]` stands outside the `try`, so an empty record raises an
uncaught `IndexError` that aborts the loop. -/
def processGo (S : Store) :
    List (List Nat) → List Phish → List LogEvent → List (List Nat) →
      List LogEvent × Except PyExc (List Phish)
  | _, entries, logs, [] => (logs, .ok entries)
  | seen, entries, logs, row :: rest =>
    match csvParseLine row with
    | [] => (logs, .error .indexError)
    | pid :: tl =>
      match extractFields (pid :: tl) with
      | none => processGo S seen entries (logs ++ [.errRow (pid :: tl)]) rest
      | some (url, st, vt) =>
        if S.existsRaw url = true ∨ S.clean url ∈ seen then
          processGo S seen entries logs rest
        else
          processGo S (seen ++ [S.clean url])
            (entries ++ [⟨pid, url, feedName, st, vt⟩]) logs rest

/-- `_process_rows` (source lines 25-56), returning the error log and
either the produced entries or the propagated exception. -/
def processRows (S : Store) (rows : List (List Nat)) :
    List LogEvent × Except PyExc (List Phish) :=
  processGo S [] [] [] rows

/-- Offset resolution (source lines 67-75): a falsy offset is replaced by
the most recent stored record's identifier, else by the configured
`last_seen`; a truthy offset is used verbatim. -/
def resolveOffset (S : Store) (lastSeen : List Nat) (offset : PyVal) : PyVal :=
  if isFalsy offset then
    match S.mostRecent with
    | some pid => .pyStr pid
    | none => .pyStr lastSeen
  else offset

instance exceptDecEq {ε α : Type} [DecidableEq ε] [DecidableEq α] :
    DecidableEq (Except ε α) := fun a b =>
  match a, b with
  | .error e, .error e' => decidable_of_iff (e = e') (by simp)
  | .ok x, .ok y => decidable_of_iff (x = y) (by simp)
  | .error _, .ok _ => isFalse (fun h => Except.noConfusion h)
  | .ok _, .error _ => isFalse (fun h => Except.noConfusion h)

/-- What one `get` call did: the value sent as the `last` query
parameter, the error log, and the returned entries or raised exception. -/
structure GetResult where
  sent : PyVal
  logs : List LogEvent
  result : Except PyExc (List Phish)
  deriving DecidableEq

/-- The `response_txt` of source lines 87-90: the empty string for a 404,
the UTF-8 encoded body otherwise. -/
def errBody (resp : HttpResponse) : List Nat :=
  if resp.status = 404 then [] else utf8Encode resp.text

/-- `get` (source lines 58-107).  The HTTP transport is abstracted as a
function from the `last` parameter to the response (endpoint, auth and
timeout are fixed per instance).  At the non-success raise (line 91) the
`FetchException` argument is the return value of `logging.error`, i.e.
`None`. -/
def get (S : Store) (cfg : Config) (http : PyVal → HttpResponse)
    (offset : PyVal) : GetResult :=
  let off := resolveOffset S cfg.lastSeen offset
  let resp := http off
  if resp.ok = false then
    { sent := off
      logs := [.errFetch (fetchErrorMsg resp.status (errBody resp) resp.headers)]
      result := .error (.fetchEx .pyNone) }
  else
    let entries := splitlinesB (utf8Encode resp.text)
    if entries.isEmpty = true ∨ entries.length < 1 then
      { sent := off, logs := []
        result := .error (.fetchEx (.pyStr (invalidResponseMsg entries))) }
    else if entries.length = 1 then
      { sent := off, logs := [], result := .ok [] }
    else
      match entries with
      | _header :: r1 :: rest =>
        let _maxId := (splitSep 44 r1).headD []
        let pr := processRows S (r1 :: rest)
        { sent := off, logs := pr.1, result := pr.2 }
      | _ => { sent := off, logs := [], result := .error .indexError }

/-- `get` with the dead `max_id` computation of source line 105 removed
(for the observational-equivalence claim). -/
def getNoMaxId (S : Store) (cfg : Config) (http : PyVal → HttpResponse)
    (offset : PyVal) : GetResult :=
  let off := resolveOffset S cfg.lastSeen offset
  let resp := http off
  if resp.ok = false then
    { sent := off
      logs := [.errFetch (fetchErrorMsg resp.status (errBody resp) resp.headers)]
      result := .error (.fetchEx .pyNone) }
  else
    let entries := splitlinesB (utf8Encode resp.text)
    if entries.isEmpty = true ∨ entries.length < 1 then
      { sent := off, logs := []
        result := .error (.fetchEx (.pyStr (invalidResponseMsg entries))) }
    else if entries.length = 1 then
      { sent := off, logs := [], result := .ok [] }
    else
      match entries with
      | _header :: r1 :: rest =>
        let pr := processRows S (r1 :: rest)
        { sent := off, logs := pr.1, result := pr.2 }
      | _ => { sent := off, logs := [], result := .error .indexError }

/-- Reading of "the exception carries the status code, the body and the
headers": its argument is a string in which each of the three appears. -/
def carriesDiagnostics (v : PyVal) (status : Nat) (body headers : List Nat) : Prop :=
  ∃ s, v = .pyStr s ∧ (natDigits status).IsInfix s ∧ body.IsInfix s ∧
    headers.IsInfix s

/-- A store knowing no URLs, with identity normalization and no most
recent record (first-run conditions). -/
def storeEmpty : Store :=
  { existsRaw := fun _ => false, clean := fun u => u, mostRecent := none }

/-- A configured fallback offset. -/
def cfgDefault : Config := { lastSeen := ascii "3000000" }

/-- The response body of the spec's worked example (§8). -/
def bodyC7 : List Nat :=
  ascii "header\n101,http%3A%2F%2Fevil.example%2Fa,ignored,2024-01-01T00:00:00Z,ignored,2024-01-02T00:00:00Z\n"

/-- Transport returning the worked example's response. -/
def httpC7 : PyVal → HttpResponse :=
  fun _ => { ok := true, status := 200, text := bodyC7, headers := ascii "hdrs" }

/-- The single entry the worked example produces. -/
def entryC7 : Phish :=
  { pid := ascii "101", url := ascii "http://evil.example/a", feed := feedName
    submission_time := ascii "2024-01-01T00:00:00Z"
    verify_time := ascii "2024-01-02T00:00:00Z" }

/-- The response `get` observes for a given call (transport applied to
the resolved offset). -/
def respOf (S : Store) (cfg : Config) (http : PyVal → HttpResponse)
    (off : PyVal) : HttpResponse :=
  http (resolveOffset S cfg.lastSeen off)

/-- A transport whose server is failing (status 500, body `oops`). -/
def httpDown : PyVal → HttpResponse :=
  fun _ => { ok := false, status := 500, text := ascii "oops", headers := ascii "hdrs" }

/-- A transport returning a success with a header-only body. -/
def httpHeaderOnly : PyVal → HttpResponse :=
  fun _ => { ok := true, status := 200, text := ascii "header", headers := ascii "hdrs" }

/-- A transport returning a success with an empty body. -/
def httpEmpty : PyVal → HttpResponse :=
  fun _ => { ok := true, status := 200, text := [], headers := ascii "hdrs" }

/-- A store like `storeEmpty` but whose most recent stored record has
identifier `4242`. -/
def storeRecent : Store :=
  { existsRaw := fun _ => false, clean := fun u => u, mostRecent := some (ascii "4242") }

/-- A well-formed data row (used to show batches with valid rows). -/
def rowOk : List Nat := ascii "102,http%3A%2F%2Fok.example%2F,x,2024-03-01,y,2024-03-02"

/-- The entry `rowOk` produces. -/
def entryOk : Phish :=
  { pid := ascii "102", url := ascii "http://ok.example/", feed := feedName
    submission_time := ascii "2024-03-01", verify_time := ascii "2024-03-02" }

/-- Two rows whose URLs normalize identically (identical raw URLs). -/
def rowDupA : List Nat := ascii "201,http%3A%2F%2Fdup.example%2F,x,t1,y,t2"

/-- Second row with the same URL as `rowDupA`. -/
def rowDupB : List Nat := ascii "202,http%3A%2F%2Fdup.example%2F,x,t3,y,t4"

/-- The entry `rowDupA` produces. -/
def entryDupA : Phish :=
  { pid := ascii "201", url := ascii "http://dup.example/", feed := feedName
    submission_time := ascii "t1", verify_time := ascii "t2" }

/-- The parsed record of the worked example's data row. -/
def recordC8 : List (List Nat) :=
  [ascii "101", ascii "http%3A%2F%2Fevil.example%2Fa", ascii "x", ascii "t1",
    ascii "y", ascii "t2"]

/-! ### Round-trip lemmas for the codecs. -/

theorem hexVal_hexDigit (x : Nat) (h : x < 16) : hexVal (hexDigit x) = x := by
  unfold hexVal hexDigit
  split <;> rename_i h10
  · rw [if_pos (by omega)]; omega
  · rw [if_neg (by omega), if_pos (by omega)]; omega

theorem isHexDigit_hexDigit (x : Nat) (h : x < 16) : isHexDigit (hexDigit x) = true := by
  unfold isHexDigit hexDigit
  split <;> simp <;> omega

theorem isSafeByte_ne_37 {b : Nat} (h : isSafeByte b = true) : b ≠ 37 := by
  unfold isSafeByte at h
  simp only [decide_eq_true_eq] at h
  omega

theorem unqGo_norm_other (b : Nat) (r : List Nat) (h : b ≠ 37) :
    unqGo .norm (b :: r) = b :: unqGo .norm r := by
  simp only [unqGo, if_neg h]

theorem unqGo_norm_pct (r : List Nat) : unqGo .norm (37 :: r) = unqGo .pct r := by
  simp [unqGo]

theorem unqGo_pct_hex (h1 : Nat) (r : List Nat) (hh : isHexDigit h1 = true) :
    unqGo .pct (h1 :: r) = unqGo (.pctH h1) r := by
  simp only [unqGo, hh, if_pos rfl, if_true]

theorem unqGo_pctH_hex (h1 h2 : Nat) (r : List Nat) (hh : isHexDigit h2 = true) :
    unqGo (.pctH h1) (h2 :: r) = (hexVal h1 * 16 + hexVal h2) :: unqGo .norm r := by
  simp only [unqGo, hh, if_pos rfl, if_true]

theorem unqGo_encByte (b : Nat) (hb : b < 256) (r : List Nat) :
    unqGo .norm (encByte b ++ r) = b :: unqGo .norm r := by
  unfold encByte
  split <;> rename_i hsafe
  · rw [List.cons_append, List.nil_append, unqGo_norm_other b r (isSafeByte_ne_37 hsafe)]
  · have h1 : b / 16 < 16 := by omega
    have h2 : b % 16 < 16 := by omega
    rw [List.cons_append, List.cons_append, List.cons_append, List.nil_append,
      unqGo_norm_pct, unqGo_pct_hex _ _ (isHexDigit_hexDigit _ h1),
      unqGo_pctH_hex _ _ _ (isHexDigit_hexDigit _ h2),
      hexVal_hexDigit _ h1, hexVal_hexDigit _ h2]
    have : b / 16 * 16 + b % 16 = b := by omega
    rw [this]

theorem unquote_percentEncode (bs : List Nat) (h : ∀ b ∈ bs, b < 256) :
    unquote (percentEncode bs) = bs := by
  induction bs with
  | nil => rfl
  | cons b tl ih =>
    have hb : b < 256 := h b (List.mem_cons_self b tl)
    have htl : ∀ x ∈ tl, x < 256 := fun x hx => h x (List.mem_cons_of_mem b hx)
    have hstep : percentEncode (b :: tl) = encByte b ++ percentEncode tl := by
      simp [percentEncode]
    have ihtl := ih htl
    unfold unquote at ihtl ⊢
    rw [hstep, unqGo_encByte b hb, ihtl]

theorem u8_start_ascii (b : Nat) (r : List Nat) (h : b < 128) :
    utf8DecodeGo none (b :: r) = (utf8DecodeGo none r).map (fun u => b :: u) := by
  simp only [utf8DecodeGo, if_pos h]

theorem u8_start_two (b : Nat) (r : List Nat) (h1 : 192 ≤ b) (h2 : b < 224) :
    utf8DecodeGo none (b :: r) = utf8DecodeGo (some (b - 192, 1, 128)) r := by
  simp only [utf8DecodeGo]
  rw [if_neg (by omega), if_neg (by omega), if_pos h2]

theorem u8_start_three (b : Nat) (r : List Nat) (h1 : 224 ≤ b) (h2 : b < 240) :
    utf8DecodeGo none (b :: r) = utf8DecodeGo (some (b - 224, 2, 2048)) r := by
  simp only [utf8DecodeGo]
  rw [if_neg (by omega), if_neg (by omega), if_neg (by omega), if_pos h2]

theorem u8_start_four (b : Nat) (r : List Nat) (h1 : 240 ≤ b) (h2 : b < 248) :
    utf8DecodeGo none (b :: r) = utf8DecodeGo (some (b - 240, 3, 65536)) r := by
  simp only [utf8DecodeGo]
  rw [if_neg (by omega), if_neg (by omega), if_neg (by omega), if_neg (by omega),
    if_pos h2]

theorem u8_cont_mid (cp k minV b : Nat) (r : List Nat) (hb1 : 128 ≤ b)
    (hb2 : b < 192) (hk : k ≠ 1) :
    utf8DecodeGo (some (cp, k, minV)) (b :: r) =
      utf8DecodeGo (some (cp * 64 + (b - 128), k - 1, minV)) r := by
  simp only [utf8DecodeGo]
  rw [if_pos ⟨hb1, hb2⟩, if_neg hk]

theorem u8_cont_last (cp minV b : Nat) (r : List Nat) (hb1 : 128 ≤ b)
    (hb2 : b < 192) (hr1 : minV ≤ cp * 64 + (b - 128))
    (hr2 : cp * 64 + (b - 128) < 1114112) :
    utf8DecodeGo (some (cp, 1, minV)) (b :: r) =
      (utf8DecodeGo none r).map (fun u => (cp * 64 + (b - 128)) :: u) := by
  simp only [utf8DecodeGo]
  rw [if_pos ⟨hb1, hb2⟩, if_pos trivial, if_pos ⟨hr1, hr2⟩]

theorem utf8DecodeGo_encodeChar (c : Nat) (hc : c < 1114112) (r : List Nat) :
    utf8DecodeGo none (utf8EncodeChar c ++ r) =
      (utf8DecodeGo none r).map (fun u => c :: u) := by
  unfold utf8EncodeChar
  by_cases h1 : c < 128
  · rw [if_pos h1, List.cons_append, List.nil_append, u8_start_ascii c r h1]
  · rw [if_neg h1]
    by_cases h2 : c < 2048
    · rw [if_pos h2]
      rw [List.cons_append, List.cons_append, List.nil_append,
        u8_start_two _ _ (by omega) (by omega),
        u8_cont_last _ _ _ _ (by omega) (by omega) (by omega) (by omega)]
      have : (192 + c / 64 - 192) * 64 + (128 + c % 64 - 128) = c := by omega
      rw [this]
    · rw [if_neg h2]
      by_cases h3 : c < 65536
      · rw [if_pos h3]
        rw [List.cons_append, List.cons_append, List.cons_append, List.nil_append,
          u8_start_three _ _ (by omega) (by omega),
          u8_cont_mid _ _ _ _ _ (by omega) (by omega) (by omega)]
        have e1 : (224 + c / 4096 - 224) * 64 + (128 + c / 64 % 64 - 128)
            = c / 64 := by omega
        rw [e1]
        rw [u8_cont_last _ _ _ _ (by omega) (by omega) (by omega) (by omega)]
        have e2 : c / 64 * 64 + (128 + c % 64 - 128) = c := by omega
        rw [e2]
      · rw [if_neg h3]
        rw [List.cons_append, List.cons_append, List.cons_append, List.cons_append,
          List.nil_append, u8_start_four _ _ (by omega) (by omega),
          u8_cont_mid _ _ _ _ _ (by omega) (by omega) (by omega)]
        have e1 : (240 + c / 262144 - 240) * 64 + (128 + c / 4096 % 64 - 128)
            = c / 4096 := by omega
        rw [e1, u8_cont_mid _ _ _ _ _ (by omega) (by omega) (by omega)]
        have e2 : c / 4096 * 64 + (128 + c / 64 % 64 - 128) = c / 64 := by omega
        rw [e2, u8_cont_last _ _ _ _ (by omega) (by omega) (by omega) (by omega)]
        have e3 : c / 64 * 64 + (128 + c % 64 - 128) = c := by omega
        rw [e3]

theorem utf8Decode_utf8Encode (u : List Nat) (h : validStr u) :
    utf8Decode (utf8Encode u) = some u := by
  induction u with
  | nil => rfl
  | cons c tl ih =>
    have hc : c < 1114112 := h c (List.mem_cons_self c tl)
    have htl : validStr tl := fun x hx => h x (List.mem_cons_of_mem c hx)
    have hstep : utf8Encode (c :: tl) = utf8EncodeChar c ++ utf8Encode tl := by
      simp [utf8Encode]
    have ihtl := ih htl
    unfold utf8Decode at ihtl ⊢
    rw [hstep, utf8DecodeGo_encodeChar c hc, ihtl]
    rfl

theorem utf8EncodeChar_bytes_lt (c : Nat) (hc : c < 1114112) :
    ∀ b ∈ utf8EncodeChar c, b < 256 := by
  intro b hb
  unfold utf8EncodeChar at hb
  split at hb
  · simp at hb; omega
  · split at hb
    · simp at hb; rcases hb with h | h <;> omega
    · split at hb
      · simp at hb; rcases hb with h | h | h <;> omega
      · simp at hb; rcases hb with h | h | h | h <;> omega

theorem utf8Encode_bytes_lt (u : List Nat) (h : validStr u) :
    ∀ b ∈ utf8Encode u, b < 256 := by
  intro b hb
  unfold utf8Encode at hb
  rw [List.mem_flatten] at hb
  obtain ⟨l, hl, hbl⟩ := hb
  rw [List.mem_map] at hl
  obtain ⟨c, hcu, rfl⟩ := hl
  exact utf8EncodeChar_bytes_lt c (h c hcu) b hbl

theorem pyDecode_pyEncode (u : List Nat) (h : validStr u) :
    pyDecode (pyEncode u) = some u := by
  unfold pyDecode pyEncode
  rw [unquote_percentEncode _ (utf8Encode_bytes_lt u h), utf8Decode_utf8Encode u h]

/-! ### Helper lemmas about `get`. -/

theorem get_sent_eq (S : Store) (cfg : Config) (http : PyVal → HttpResponse)
    (off : PyVal) : (get S cfg http off).sent = resolveOffset S cfg.lastSeen off := by
  simp only [get]
  split
  · rfl
  · split
    · rfl
    · split
      · rfl
      · split <;> rfl

theorem fetchErrorMsg_infix_status (st : Nat) (b h : List Nat) :
    (natDigits st).IsInfix (fetchErrorMsg st b h) :=
  ⟨ascii "Error fetching response:\nStatus: ",
   ascii "\nResponse:" ++ b ++ ascii "\nResponse Headers:" ++ h,
   by simp [fetchErrorMsg, List.append_assoc]⟩

theorem fetchErrorMsg_infix_body (st : Nat) (b h : List Nat) :
    b.IsInfix (fetchErrorMsg st b h) :=
  ⟨ascii "Error fetching response:\nStatus: " ++ natDigits st ++ ascii "\nResponse:",
   ascii "\nResponse Headers:" ++ h,
   by simp [fetchErrorMsg, List.append_assoc]⟩

theorem fetchErrorMsg_infix_headers (st : Nat) (b h : List Nat) :
    h.IsInfix (fetchErrorMsg st b h) :=
  ⟨ascii "Error fetching response:\nStatus: " ++ natDigits st ++ ascii "\nResponse:"
      ++ b ++ ascii "\nResponse Headers:", [],
   by simp [fetchErrorMsg, List.append_assoc]⟩

/-! ### Claim theorems. -/

/-- C4: for every call to `get`, a truthy caller-supplied offset is sent
unmodified as the `last` parameter; a falsy one is replaced by the most
recent stored record's identifier when the store has one, else by the
configured `last_seen`.  Resolution is a total function (never fails). -/
theorem C4_offset_resolution (S : Store) (cfg : Config)
    (http : PyVal → HttpResponse) (off : PyVal) :
    (get S cfg http off).sent = resolveOffset S cfg.lastSeen off ∧
    (isFalsy off = false → (get S cfg http off).sent = off) ∧
    (∀ pid, isFalsy off = true → S.mostRecent = some pid →
      (get S cfg http off).sent = .pyStr pid) ∧
    (isFalsy off = true → S.mostRecent = none →
      (get S cfg http off).sent = .pyStr cfg.lastSeen) := by
  have hs := get_sent_eq S cfg http off
  refine ⟨hs, ?_, ?_, ?_⟩
  · intro h; rw [hs]; simp [resolveOffset, h]
  · intro pid h hm; rw [hs]; simp [resolveOffset, h, hm]
  · intro h hm; rw [hs]; simp [resolveOffset, h, hm]

/-- Witness for C4 at concrete inputs, one per branch. -/
theorem C4_witness :
    (get storeEmpty cfgDefault httpC7 (.pyStr (ascii "42"))).sent
      = .pyStr (ascii "42") ∧
    (get storeRecent cfgDefault httpC7 (.pyInt 0)).sent = .pyStr (ascii "4242") ∧
    (get storeEmpty cfgDefault httpC7 .pyNone).sent = .pyStr (ascii "3000000") :=
  ⟨(C4_offset_resolution storeEmpty cfgDefault httpC7 _).2.1 (by decide),
   (C4_offset_resolution storeRecent cfgDefault httpC7 _).2.2.1
      (ascii "4242") (by decide) rfl,
   (C4_offset_resolution storeEmpty cfgDefault httpC7 _).2.2.2 (by decide) rfl⟩

/-- C10: every falsy caller-supplied offset (`0`, the empty string,
`None`) behaves exactly like the default: the caller's value is not
sent, the resolver chain decides the `last` parameter. -/
theorem C10_falsy_offset (S : Store) (cfg : Config)
    (http : PyVal → HttpResponse) (off : PyVal) (h : isFalsy off = true) :
    get S cfg http off = get S cfg http (.pyInt 0) ∧
    (get S cfg http off).sent =
      (match S.mostRecent with
       | some pid => PyVal.pyStr pid
       | none => PyVal.pyStr cfg.lastSeen) := by
  have hkey : resolveOffset S cfg.lastSeen off
      = resolveOffset S cfg.lastSeen (.pyInt 0) := by
    unfold resolveOffset
    rw [if_pos h, if_pos (show isFalsy (.pyInt 0) = true by decide)]
  constructor
  · simp only [get, hkey]
  · rw [get_sent_eq]
    unfold resolveOffset
    rw [if_pos h]

/-- Witness for C10 at a concrete falsy offset (the empty string). -/
theorem C10_witness :
    (get storeRecent cfgDefault httpC7 (.pyStr [])
      = get storeRecent cfgDefault httpC7 (.pyInt 0)) ∧
    (get storeRecent cfgDefault httpC7 (.pyStr [])).sent = .pyStr (ascii "4242") :=
  ⟨(C10_falsy_offset storeRecent cfgDefault httpC7 _ (by decide)).1,
   (C10_falsy_offset storeRecent cfgDefault httpC7 _ (by decide)).2⟩

/-- C5: a successful response whose body splits into exactly one line
(the header) makes `get` return the empty list, not raise. -/
theorem C5_header_only_empty (S : Store) (cfg : Config)
    (http : PyVal → HttpResponse) (off : PyVal)
    (hok : (respOf S cfg http off).ok = true)
    (hlen : (splitlinesB (utf8Encode (respOf S cfg http off).text)).length = 1) :
    (get S cfg http off).result = .ok [] := by
  obtain ⟨line, hline⟩ := List.length_eq_one.mp hlen
  unfold respOf at hok hline
  simp only [get, hok, hline]
  simp

/-- Witness for C5: a header-only response. -/
theorem C5_witness : (get storeEmpty cfgDefault httpHeaderOnly .pyNone).result = .ok [] :=
  C5_header_only_empty storeEmpty cfgDefault httpHeaderOnly .pyNone (by decide) (by decide)

/-- C6: a successful response with an empty body (equivalently, a body
splitting into zero lines) makes `get` raise a `FetchException`. -/
theorem C6_empty_body_raises (S : Store) (cfg : Config)
    (http : PyVal → HttpResponse) (off : PyVal)
    (hok : (respOf S cfg http off).ok = true)
    (hempty : (respOf S cfg http off).text = [] ∨
      splitlinesB (utf8Encode (respOf S cfg http off).text) = []) :
    ∃ v, (get S cfg http off).result = .error (.fetchEx v) := by
  have hsplit : splitlinesB (utf8Encode (respOf S cfg http off).text) = [] := by
    rcases hempty with h | h
    · rw [h]; rfl
    · exact h
  refine ⟨.pyStr (invalidResponseMsg []), ?_⟩
  unfold respOf at hok hsplit
  simp only [get, hok, hsplit]
  simp

/-- Witness for C6: an empty successful response. -/
theorem C6_witness :
    ∃ v, (get storeEmpty cfgDefault httpEmpty .pyNone).result = .error (.fetchEx v) :=
  C6_empty_body_raises storeEmpty cfgDefault httpEmpty .pyNone (by decide) (.inl rfl)

/-- C9: for a response with at least two lines (indeed for every input),
removing the `max_id` computation of source line 105 does not change
what `get` does: the computed value is dead. -/
theorem C9_max_id_dead_code (S : Store) (cfg : Config)
    (http : PyVal → HttpResponse) (off : PyVal)
    (_h : 2 ≤ (splitlinesB (utf8Encode (respOf S cfg http off).text)).length) :
    get S cfg http off = getNoMaxId S cfg http off := rfl

/-- Witness for C9 at the worked example's two-line response. -/
theorem C9_witness :
    get storeEmpty cfgDefault httpC7 .pyNone
      = getNoMaxId storeEmpty cfgDefault httpC7 .pyNone :=
  C9_max_id_dead_code storeEmpty cfgDefault httpC7 .pyNone (by decide)

/-- C7: the spec's worked example: one data row with a percent-encoded
URL, a store that knows nothing, and `get` returns exactly one entry
with the decoded URL and the two timestamps. -/
theorem C7_concrete_example :
    (get storeEmpty cfgDefault httpC7 .pyNone).result = .ok [entryC7] := by decide

/-- C1 counterexample: at a concrete failing response (status 500, body
`oops`), `get` raises `FetchException` whose argument is `None` — the
exception does not carry the status code, body or headers. -/
theorem C1_counterexample :
    (get storeEmpty cfgDefault httpDown .pyNone).result
      = .error (.fetchEx .pyNone) ∧
    ¬ ∃ v, (get storeEmpty cfgDefault httpDown .pyNone).result
        = .error (.fetchEx v) ∧
      carriesDiagnostics v 500 (utf8Encode (ascii "oops")) (ascii "hdrs") := by
  have hres : (get storeEmpty cfgDefault httpDown .pyNone).result
      = .error (.fetchEx .pyNone) := by decide
  refine ⟨hres, ?_⟩
  rintro ⟨v, hv, s, hvs, -⟩
  rw [hres] at hv
  injection hv with hv
  injection hv with hv
  rw [← hv] at hvs
  simp at hvs

/-- C1 (amended): on every non-success response `get` raises a
`FetchException` carrying `None` (the return value of `logging.error`);
the status code, the body (empty string substituted for 404) and the
headers are carried in the logged error message instead. -/
theorem C1_failure_logged_not_carried (S : Store) (cfg : Config)
    (http : PyVal → HttpResponse) (off : PyVal)
    (hok : (respOf S cfg http off).ok = false) :
    (get S cfg http off).result = .error (.fetchEx .pyNone) ∧
    (get S cfg http off).logs = [.errFetch (fetchErrorMsg
      (respOf S cfg http off).status (errBody (respOf S cfg http off))
      (respOf S cfg http off).headers)] ∧
    (natDigits (respOf S cfg http off).status).IsInfix (fetchErrorMsg
      (respOf S cfg http off).status (errBody (respOf S cfg http off))
      (respOf S cfg http off).headers) ∧
    (errBody (respOf S cfg http off)).IsInfix (fetchErrorMsg
      (respOf S cfg http off).status (errBody (respOf S cfg http off))
      (respOf S cfg http off).headers) ∧
    ((respOf S cfg http off).headers).IsInfix (fetchErrorMsg
      (respOf S cfg http off).status (errBody (respOf S cfg http off))
      (respOf S cfg http off).headers) := by
  have hget : get S cfg http off =
      { sent := resolveOffset S cfg.lastSeen off
        logs := [.errFetch (fetchErrorMsg (respOf S cfg http off).status
          (errBody (respOf S cfg http off)) (respOf S cfg http off).headers)]
        result := .error (.fetchEx .pyNone) } := by
    unfold respOf at hok ⊢
    simp only [get, hok]
    simp
  rw [hget]
  exact ⟨rfl, rfl, fetchErrorMsg_infix_status _ _ _,
    fetchErrorMsg_infix_body _ _ _, fetchErrorMsg_infix_headers _ _ _⟩

/-- Witness for the amended C1 at the concrete failing response. -/
theorem C1_witness :
    (get storeEmpty cfgDefault httpDown .pyNone).result
      = .error (.fetchEx .pyNone) ∧
    (get storeEmpty cfgDefault httpDown .pyNone).logs
      = [.errFetch (fetchErrorMsg 500 (utf8Encode (ascii "oops")) (ascii "hdrs"))] ∧
    (natDigits 500).IsInfix
      (fetchErrorMsg 500 (utf8Encode (ascii "oops")) (ascii "hdrs")) ∧
    (utf8Encode (ascii "oops")).IsInfix
      (fetchErrorMsg 500 (utf8Encode (ascii "oops")) (ascii "hdrs")) ∧
    (ascii "hdrs").IsInfix
      (fetchErrorMsg 500 (utf8Encode (ascii "oops")) (ascii "hdrs")) :=
  C1_failure_logged_not_carried storeEmpty cfgDefault httpDown .pyNone rfl

/-- C2: the claim says a row whose field extraction fails — including a
row with zero fields — is logged and skipped without aborting the batch.
The code reads `record[0]` outside the `try` (source line 42), so a
zero-field row (a blank line) raises an uncaught `IndexError` and aborts
the whole batch, losing the following valid row; that valid row alone
processes fine. -/
theorem C2_zero_field_row_aborts :
    processRows storeEmpty [ascii "", rowOk] = ([], .error .indexError) ∧
    (processRows storeEmpty [rowOk]).2 = .ok [entryOk] := by
  constructor <;> decide

/-- C8: for a well-formed percent-encoded URL field (one the feed's
encoder can produce), percent-encoding the URL stored in the resulting
entry yields the raw field again. -/
theorem C8_url_roundtrip (record : List (List Nat)) (x url st vt : List Nat)
    (hx : record.get? 1 = some x) (hwf : wellFormedField x)
    (hext : extractFields record = some (url, st, vt)) :
    pyEncode url = x := by
  obtain ⟨u, hu, henc⟩ := hwf
  have hdec : pyDecode x = some u := by rw [← henc]; exact pyDecode_pyEncode u hu
  unfold extractFields at hext
  split at hext
  · simp at hext
  · rename_i rawUrl h1
    rw [hx] at h1
    injection h1 with hxr
    split at hext
    · simp at hext
    · rename_i url' h2
      rw [← hxr, hdec] at h2
      injection h2 with h2
      split at hext
      · simp only [Option.some.injEq, Prod.mk.injEq] at hext
        rw [← hext.1, ← h2]
        exact henc
      · simp at hext

/-- Witness for C8: the worked example's URL field. -/
theorem C8_witness :
    pyEncode (ascii "http://evil.example/a") = ascii "http%3A%2F%2Fevil.example%2Fa" :=
  C8_url_roundtrip recordC8 (ascii "http%3A%2F%2Fevil.example%2Fa")
    (ascii "http://evil.example/a") (ascii "t1") (ascii "t2") (by decide)
    ⟨ascii "http://evil.example/a", by unfold validStr; decide, by decide⟩
    (by decide)

/-- Full invariant of the `_process_rows` loop, relative to the starting
`urls_seen` and accumulated entries: on normal return the new entries
have pairwise distinct normalized URLs, none is known to the store or
normalizes into the starting seen-set, and each one arises from a row no
earlier row of which (valid and not store-known) shares its normalized
URL — the first such row wins. -/
theorem processGo_spec (S : Store) :
    ∀ (rows seen : List (List Nat)) (entries : List Phish)
      (logs logs' : List LogEvent) (l : List Phish),
      processGo S seen entries logs rows = (logs', .ok l) →
      ∃ news, l = entries ++ news ∧
        (news.map fun e => S.clean e.url).Nodup ∧
        (∀ e ∈ news, S.existsRaw e.url = false ∧ S.clean e.url ∉ seen) ∧
        (∀ e ∈ news, ∃ j rj, rows.get? j = some rj ∧ rowPhishE rj = some e ∧
          ∀ i ri ei, i < j → rows.get? i = some ri → rowPhishE ri = some ei →
            S.existsRaw ei.url = false → S.clean ei.url ≠ S.clean e.url) := by
  intro rows
  induction rows with
  | nil =>
    intro seen entries logs logs' l h
    simp only [processGo, Prod.mk.injEq, Except.ok.injEq] at h
    exact ⟨[], by simp [h.2], by simp, by simp, by simp⟩
  | cons row rest ih =>
    intro seen entries logs logs' l h
    simp only [processGo] at h
    cases hrec : csvParseLine row with
    | nil =>
      simp only [hrec] at h
      simp at h
    | cons pid tl =>
      simp only [hrec] at h
      cases hext : extractFields (pid :: tl) with
      | none =>
        simp only [hext] at h
        obtain ⟨news, h1, h2, h3, h4⟩ :=
          ih seen entries (logs ++ [.errRow (pid :: tl)]) logs' l h
        refine ⟨news, h1, h2, h3, ?_⟩
        intro e he
        obtain ⟨j, rj, hj, hrow, hmin⟩ := h4 e he
        refine ⟨j + 1, rj, by rw [List.get?_cons_succ]; exact hj, hrow, ?_⟩
        intro i ri ei hij hi hri hexi
        cases i with
        | zero =>
          rw [List.get?_cons_zero] at hi
          injection hi with hi
          subst hi
          have hnone : rowPhishE row = none := by simp [rowPhishE, hrec, hext]
          rw [hnone] at hri
          exact absurd hri (by simp)
        | succ i' =>
          rw [List.get?_cons_succ] at hi
          exact hmin i' ri ei (by omega) hi hri hexi
      | some x =>
        obtain ⟨url, st, vt⟩ := x
        simp only [hext] at h
        by_cases hskip : S.existsRaw url = true ∨ S.clean url ∈ seen
        · rw [if_pos hskip] at h
          obtain ⟨news, h1, h2, h3, h4⟩ := ih seen entries logs logs' l h
          refine ⟨news, h1, h2, h3, ?_⟩
          intro e he
          obtain ⟨j, rj, hj, hrow, hmin⟩ := h4 e he
          refine ⟨j + 1, rj, by rw [List.get?_cons_succ]; exact hj, hrow, ?_⟩
          intro i ri ei hij hi hri hexi
          cases i with
          | zero =>
            rw [List.get?_cons_zero] at hi
            injection hi with hi
            subst hi
            have hrow0 : rowPhishE row = some ⟨pid, url, feedName, st, vt⟩ := by
              simp [rowPhishE, hrec, hext]
            rw [hrow0] at hri
            injection hri with hei
            subst hei
            rcases hskip with hsk | hsk
            · simp [hsk] at hexi
            · intro heq
              apply (h3 e he).2
              rw [← heq]
              exact hsk
          | succ i' =>
            rw [List.get?_cons_succ] at hi
            exact hmin i' ri ei (by omega) hi hri hexi
        · rw [if_neg hskip] at h
          have hnot := not_or.mp hskip
          have hexf : S.existsRaw url = false := by
            cases hb : S.existsRaw url
            · rfl
            · exact absurd hb hnot.1
          have hseen : S.clean url ∉ seen := hnot.2
          obtain ⟨news', h1, h2, h3, h4⟩ :=
            ih (seen ++ [S.clean url])
              (entries ++ [⟨pid, url, feedName, st, vt⟩]) logs logs' l h
          refine ⟨⟨pid, url, feedName, st, vt⟩ :: news', ?_, ?_, ?_, ?_⟩
          · rw [h1]; simp
          · rw [List.map_cons, List.nodup_cons]
            refine ⟨?_, h2⟩
            intro hmem
            rw [List.mem_map] at hmem
            obtain ⟨e, he, heq⟩ := hmem
            apply (h3 e he).2
            apply List.mem_append_right
            rw [heq]
            exact List.mem_singleton_self _
          · intro e he
            rcases List.mem_cons.mp he with rfl | he'
            · exact ⟨hexf, hseen⟩
            · have h3e := h3 e he'
              exact ⟨h3e.1, fun hm => h3e.2 (List.mem_append_left _ hm)⟩
          · intro e he
            rcases List.mem_cons.mp he with rfl | he'
            · refine ⟨0, row, rfl, by simp [rowPhishE, hrec, hext], ?_⟩
              intro i ri ei hij
              exact absurd hij (Nat.not_lt_zero i)
            · obtain ⟨j, rj, hj, hrow, hmin⟩ := h4 e he'
              refine ⟨j + 1, rj, by rw [List.get?_cons_succ]; exact hj, hrow, ?_⟩
              intro i ri ei hij hi hri hexi
              cases i with
              | zero =>
                rw [List.get?_cons_zero] at hi
                injection hi with hi
                subst hi
                have hrow0 : rowPhishE row = some ⟨pid, url, feedName, st, vt⟩ := by
                  simp [rowPhishE, hrec, hext]
                rw [hrow0] at hri
                injection hri with hei
                subst hei
                intro heq
                apply (h3 e he').2
                apply List.mem_append_right
                rw [← heq]
                exact List.mem_singleton_self _
              | succ i' =>
                rw [List.get?_cons_succ] at hi
                exact hmin i' ri ei (by omega) hi hri hexi

/-- C3: on normal return of a batch (`_process_rows`, which computes the
list `get` returns), no two returned entries have equal normalized URLs,
no returned entry's URL is known to the store, and each entry comes from
the first valid, not-store-known row with its normalized URL (so when
two rows normalize identically only the first is retained). -/
theorem C3_dedup_invariant (S : Store) (rows : List (List Nat))
    (logs : List LogEvent) (l : List Phish)
    (h : processRows S rows = (logs, .ok l)) :
    (l.map fun e => S.clean e.url).Nodup ∧
    (∀ e ∈ l, S.existsRaw e.url = false) ∧
    (∀ e ∈ l, ∃ j rj, rows.get? j = some rj ∧ rowPhishE rj = some e ∧
      ∀ i ri ei, i < j → rows.get? i = some ri → rowPhishE ri = some ei →
        S.existsRaw ei.url = false → S.clean ei.url ≠ S.clean e.url) := by
  obtain ⟨news, h1, h2, h3, h4⟩ := processGo_spec S rows [] [] [] logs l h
  rw [List.nil_append] at h1
  subst h1
  exact ⟨h2, fun e he => (h3 e he).1, h4⟩

/-- Witness for C3: a batch whose two rows normalize identically; the
first row's entry is the one retained, and the invariant holds of it. -/
theorem C3_witness :
    processRows storeEmpty [rowDupA, rowDupB] = ([], .ok [entryDupA]) ∧
    (([entryDupA].map fun e => storeEmpty.clean e.url).Nodup ∧
     (∀ e ∈ [entryDupA], storeEmpty.existsRaw e.url = false) ∧
     (∀ e ∈ [entryDupA], ∃ j rj, [rowDupA, rowDupB].get? j = some rj ∧
        rowPhishE rj = some e ∧
        ∀ i ri ei, i < j → [rowDupA, rowDupB].get? i = some ri →
          rowPhishE ri = some ei → storeEmpty.existsRaw ei.url = false →
          storeEmpty.clean ei.url ≠ storeEmpty.clean e.url)) :=
  ⟨by decide,
   C3_dedup_invariant storeEmpty [rowDupA, rowDupB] [] [entryDupA] (by decide)⟩


end Phishtank
